import Mathlib

/-!
Verification of the `personaldetail` data model of the `hrmgmt` repository
(`src/hrmgmt/personaldetail/models.py`, `src/hrmgmt/personaldetail/admin.py`).

Python strings are modelled as `List Char` (a Python `str` is a sequence of
code points; all lengths in the model count characters, matching Django's
`max_length` and Python slicing).  Primary keys (`UUIDField`) are modelled as
`Nat` identifiers; `uuid.uuid4` defaults mean the primary key of an instance
is always set before `save`, which is why `unique_slugify` always excludes the
instance's own pk.  Database tables are lists of records, and each model's
`save` is translated to an explicit state-passing function; `save`s that the
database's declared unique constraints would reject return `none`.
-/

namespace HR

/-- Characters of a string literal (Python text as a list of code points). -/
def chars (s : String) : List Char := s.data

/-- The character of a decimal digit, as produced by Python `str(int)`:
`0 ↦ '0', …, 9 ↦ '9'`. -/
def digitCh (n : Nat) : Char := Char.ofNat (48 + n % 10)

/-- Fuel-driven decimal rendering of a natural number, least significant digit
produced last.  `fuel` bounds the recursion depth; `natChars` supplies enough
fuel, so the `fuel = 0` case is never reached on the arguments we use. -/
def natCharsAux : Nat → Nat → List Char
  | 0, _ => []
  | fuel + 1, n => if n < 10 then [digitCh n] else natCharsAux fuel (n / 10) ++ [digitCh n]

/-- The decimal representation of `n`, as Python's `str(n)` / `f"{n}"`. -/
def natChars (n : Nat) : List Char := natCharsAux (n + 1) n

theorem natCharsAux_ne_nil (fuel n : Nat) (h : 0 < fuel) : natCharsAux fuel n ≠ [] := by
  cases fuel with
  | zero => exact absurd h (lt_irrefl 0)
  | succ f =>
    unfold natCharsAux
    by_cases h10 : n < 10
    · simp [h10]
    · simp [h10]

theorem natChars_ne_nil (n : Nat) : natChars n ≠ [] :=
  natCharsAux_ne_nil (n + 1) n (Nat.succ_pos n)

/-- A number with at least `k + 1` decimal digits renders to at least `k + 1`
characters. -/
theorem natCharsAux_length_ge (fuel : Nat) :
    ∀ n k : Nat, n < fuel → 10 ^ k ≤ n → k + 1 ≤ (natCharsAux fuel n).length := by
  induction fuel with
  | zero => intro n k hn _; exact absurd hn (Nat.not_lt_zero n)
  | succ f ih =>
    intro n k hn hk
    unfold natCharsAux
    by_cases h10 : n < 10
    · have hk0 : k = 0 := by
        by_contra hke
        have h1 : 1 ≤ k := Nat.one_le_iff_ne_zero.mpr hke
        have : (10 : Nat) ^ 1 ≤ 10 ^ k := Nat.pow_le_pow_right (by norm_num) h1
        simp at this
        omega
      simp [h10, hk0]
    · simp only [h10, if_false, List.length_append, List.length_cons, List.length_nil]
      cases k with
      | zero => omega
      | succ k' =>
        have hnpos : 0 < n := by omega
        have hdiv_lt : n / 10 < n := Nat.div_lt_self hnpos (by norm_num)
        have hdiv_fuel : n / 10 < f := by omega
        have hdiv_ge : 10 ^ k' ≤ n / 10 := by
          rw [Nat.le_div_iff_mul_le (by norm_num : 0 < 10)]
          calc 10 ^ k' * 10 = 10 ^ (k' + 1) := (pow_succ 10 k').symm
            _ ≤ n := hk
        have := ih (n / 10) k' hdiv_fuel hdiv_ge
        omega

theorem natChars_length_ge (n k : Nat) (h : 10 ^ k ≤ n) :
    k + 1 ≤ (natChars n).length :=
  natCharsAux_length_ge (n + 1) n k (Nat.lt_succ_self n) h

/-!
### `django.utils.text.slugify`, ASCII fragment

The repository calls Django's `slugify` (an external library function) with
`allow_unicode = False`: lower-case the text, drop every character that is not
a word character (`[a-zA-Z0-9_]`), whitespace or a hyphen, replace every
maximal run of hyphens/whitespace by a single hyphen, and strip leading and
trailing hyphens and underscores.  The preliminary NFKD/ASCII normalisation
acts as the identity on ASCII text and is modelled as such.
-/

/-- A regex `\w` word character: letter, digit or underscore (ASCII). -/
def isWordCh (c : Char) : Bool := c.isAlphanum || c = '_'

/-- A character replaced by the run-collapsing step: hyphen or whitespace
(regex `[-\s]`). -/
def isDashSpace (c : Char) : Bool := c = '-' || c.isWhitespace

/-- A character stripped from both ends (`.strip("-_")`). -/
def isStripCh (c : Char) : Bool := c = '-' || c = '_'

/-- Replace each maximal run of hyphen/whitespace characters by one hyphen
(`re.sub(r"[-\s]+", "-", value)`).  The flag records whether the previous
character belonged to such a run. -/
def collapseRuns : Bool → List Char → List Char
  | _, [] => []
  | inRun, c :: cs =>
    if isDashSpace c then
      (if inRun then [] else ['-']) ++ collapseRuns true cs
    else
      c :: collapseRuns false cs

/-- Python `str.strip(set)`: drop the characters of the set from both ends. -/
def stripBoth (p : Char → Bool) (l : List Char) : List Char :=
  ((l.dropWhile p).reverse.dropWhile p).reverse

/-- Django's `slugify(value)` for ASCII text. -/
def slugify (v : List Char) : List Char :=
  let lowered := v.map Char.toLower
  let cleaned := lowered.filter (fun c => isWordCh c || c.isWhitespace || c = '-')
  stripBoth isStripCh (collapseRuns false cleaned)

/-!
### `unique_slugify`

`unique_slugify(instance, value, slug_field_name='slug', queryset=None,
separator='-')` takes the slugs already used by the scoping queryset with the
instance's own pk excluded (`taken` below), starts from
`slugify(value)[:180]`, and while the current candidate is taken replaces it
by `f"{original_slug}{separator}{next_}"` for `next_ = 1, 2, 3, …`.  The loop
denotes: the base slug if it is free, otherwise the candidate with the least
suffix index `n ≥ 1` that is free; such an index exists because suffix indices
with more decimal digits than any taken slug has characters give candidates
longer than every taken slug.
-/

/-- The candidate `f"{original_slug}{separator}{next_}"`. -/
def slugCandidate (base sep : List Char) (n : Nat) : List Char :=
  base ++ sep ++ natChars n

/-- An upper bound on the lengths of the taken slugs. -/
def maxLen (taken : List (List Char)) : Nat :=
  (taken.map List.length).foldr max 0

theorem length_le_maxLen {taken : List (List Char)} {s : List Char}
    (h : s ∈ taken) : s.length ≤ maxLen taken := by
  induction taken with
  | nil => cases h
  | cons t ts ih =>
    rcases List.mem_cons.mp h with rfl | hmem
    · exact le_max_of_le_left (le_refl _)
    · exact le_max_of_le_right (ih hmem)

theorem exists_free_candidate (taken : List (List Char)) (base sep : List Char) :
    ∃ k : Nat, slugCandidate base sep (k + 1) ∉ taken := by
  refine ⟨10 ^ maxLen taken - 1, fun hmem => ?_⟩
  have hpow : 1 ≤ 10 ^ maxLen taken := Nat.one_le_two_pow.trans
    (Nat.pow_le_pow_left (by norm_num) _)
  have hidx : 10 ^ maxLen taken - 1 + 1 = 10 ^ maxLen taken := by omega
  have hlen_le : (slugCandidate base sep (10 ^ maxLen taken - 1 + 1)).length ≤ maxLen taken :=
    length_le_maxLen hmem
  have hnat : maxLen taken + 1 ≤ (natChars (10 ^ maxLen taken - 1 + 1)).length := by
    refine natChars_length_ge _ _ ?_
    rw [hidx]
  have hcand : (natChars (10 ^ maxLen taken - 1 + 1)).length ≤
      (slugCandidate base sep (10 ^ maxLen taken - 1 + 1)).length := by
    simp [slugCandidate, List.length_append]
    omega
  omega

/-- The least free suffix index `n ≥ 1`: the index at which the `while` loop of
`unique_slugify` stops once the base slug itself is taken. -/
def firstFreeIdx (taken : List (List Char)) (base sep : List Char) : Nat :=
  Nat.find (exists_free_candidate taken base sep) + 1

/-- `unique_slugify`: the value computed for the instance's slug field, given
the slugs `taken` of the other records of the scoping queryset. -/
def uniqueSlugify (taken : List (List Char)) (value sep : List Char) : List Char :=
  let slug := (slugify value).take 180
  if slug ∈ taken then slugCandidate slug sep (firstFreeIdx taken slug sep) else slug

theorem firstFreeIdx_pos (taken : List (List Char)) (base sep : List Char) :
    1 ≤ firstFreeIdx taken base sep :=
  Nat.le_add_left 1 _

theorem firstFreeIdx_free (taken : List (List Char)) (base sep : List Char) :
    slugCandidate base sep (firstFreeIdx taken base sep) ∉ taken :=
  Nat.find_spec (exists_free_candidate taken base sep)

theorem firstFreeIdx_min (taken : List (List Char)) (base sep : List Char)
    (m : Nat) (h1 : 1 ≤ m) (hlt : m < firstFreeIdx taken base sep) :
    slugCandidate base sep m ∈ taken := by
  have hm : m - 1 < Nat.find (exists_free_candidate taken base sep) := by
    unfold firstFreeIdx at hlt; omega
  have := Nat.find_min (exists_free_candidate taken base sep) hm
  have hidx : m - 1 + 1 = m := by omega
  rw [hidx] at this
  exact not_not.mp this

/-- The slug chosen by `unique_slugify` is used by no other record of the
scoping queryset. -/
theorem uniqueSlugify_not_mem (taken : List (List Char)) (value sep : List Char) :
    uniqueSlugify taken value sep ∉ taken := by
  unfold uniqueSlugify
  by_cases h : (slugify value).take 180 ∈ taken
  · simpa [h] using firstFreeIdx_free taken ((slugify value).take 180) sep
  · simp only [if_neg h]
    exact h

/-!
### Slugged tables and their `save` methods

`Province`, `Post`, `Bank`, `SpecificWork` and `Person` declare
`slug = SlugField(..., unique=True)`: their slug is globally unique and
`save` calls `unique_slugify(self, base)` against the whole table.
`District`, `Municipality`, `Ward` and `BankBranch` declare a
`UniqueConstraint` on `(parent, slug)` and `save` calls `unique_slugify`
against the queryset filtered to the parent.  Rows are reduced to the fields
the slug machinery reads: the pk, the scoping parent's pk, and the slug.
A `save` first fills an empty slug via `unique_slugify` and then writes the
row; a write the declared unique constraint would reject raises
`IntegrityError`, modelled as `none`.
-/

/-- A row of a table whose slug is globally unique. -/
structure GRow where
  pk : Nat
  slug : List Char
deriving DecidableEq

/-- A row of a table whose slug is unique within a parent scope. -/
structure SRow where
  pk : Nat
  scope : Nat
  slug : List Char
deriving DecidableEq

/-- Slugs of `Model._default_manager.all().exclude(pk=pk)`. -/
def takenGlobal (t : List GRow) (pk : Nat) : List (List Char) :=
  (t.filter (fun x => x.pk ≠ pk)).map GRow.slug

/-- Slugs of `Model.objects.filter(parent=scope).exclude(pk=pk)`. -/
def takenScoped (t : List SRow) (pk scope : Nat) : List (List Char) :=
  (t.filter (fun x => x.scope = scope ∧ x.pk ≠ pk)).map SRow.slug

/-- Django's write of a model instance: `UPDATE` the row with this pk if it
exists, else `INSERT`. -/
def upsertG (t : List GRow) (r : GRow) : List GRow :=
  if t.any (fun x => x.pk = r.pk) then t.map (fun x => if x.pk = r.pk then r else x)
  else t ++ [r]

def upsertS (t : List SRow) (r : SRow) : List SRow :=
  if t.any (fun x => x.pk = r.pk) then t.map (fun x => if x.pk = r.pk then r else x)
  else t ++ [r]

/-- The slug a globally-slugged model's `save` writes: `if not self.slug:
unique_slugify(self, base)` — an empty slug is filled, a preset one kept. -/
def chosenSlugG (t : List GRow) (pk : Nat) (base slug0 : List Char) : List Char :=
  if slug0 = [] then uniqueSlugify (takenGlobal t pk) base (chars "-") else slug0

/-- The slug a parent-scoped model's `save` writes. -/
def chosenSlugS (t : List SRow) (pk scope : Nat) (base slug0 : List Char) : List Char :=
  if slug0 = [] then uniqueSlugify (takenScoped t pk scope) base (chars "-") else slug0

/-- `save` of a globally-slugged model: fill an empty slug with
`unique_slugify(self, base)`, then write; `none` when the write would violate
the declared `unique=True` constraint on `slug`. -/
def saveGlobalRow (t : List GRow) (pk : Nat) (base slug0 : List Char) :
    Option (List GRow) :=
  if (t.filter (fun x => x.pk ≠ pk)).any (fun x => x.slug = chosenSlugG t pk base slug0)
  then none
  else some (upsertG t ⟨pk, chosenSlugG t pk base slug0⟩)

/-- `save` of a parent-scoped model: fill an empty slug with `unique_slugify`
scoped to the parent, then write; `none` when the write would violate the
declared `UniqueConstraint(parent, slug)`. -/
def saveScopedRow (t : List SRow) (pk scope : Nat) (base slug0 : List Char) :
    Option (List SRow) :=
  if (t.filter (fun x => x.scope = scope ∧ x.pk ≠ pk)).any
      (fun x => x.slug = chosenSlugS t pk scope base slug0)
  then none
  else some (upsertS t ⟨pk, scope, chosenSlugS t pk scope base slug0⟩)

/-- The slugged tables of the schema. -/
structure DBState where
  provinces : List GRow
  districts : List SRow
  municipalities : List SRow
  wards : List SRow
  posts : List GRow
  banks : List GRow
  branches : List SRow
  works : List GRow
  persons : List GRow
deriving DecidableEq

def emptyDB : DBState := ⟨[], [], [], [], [], [], [], [], []⟩

/-- `Province.save`: `unique_slugify(self, self.name)` when the slug is empty. -/
def saveProvince (st : DBState) (pk : Nat) (name slug0 : List Char) : Option DBState :=
  (saveGlobalRow st.provinces pk name slug0).map (fun t => { st with provinces := t })

/-- `District.save`: `unique_slugify(self, self.name,
queryset=District.objects.filter(province=self.province))`. -/
def saveDistrict (st : DBState) (pk province : Nat) (name slug0 : List Char) :
    Option DBState :=
  (saveScopedRow st.districts pk province name slug0).map
    (fun t => { st with districts := t })

/-- `Municipality.save`: scoped to the municipality's district. -/
def saveMunicipality (st : DBState) (pk district : Nat) (name slug0 : List Char) :
    Option DBState :=
  (saveScopedRow st.municipalities pk district name slug0).map
    (fun t => { st with municipalities := t })

/-- `Ward.save`: `unique_slugify(self, f"ward-{self.ward_no}",
queryset=Ward.objects.filter(municipality=self.municipality))`. -/
def saveWard (st : DBState) (pk municipality ward_no : Nat) (slug0 : List Char) :
    Option DBState :=
  (saveScopedRow st.wards pk municipality (chars "ward-" ++ natChars ward_no) slug0).map
    (fun t => { st with wards := t })

/-- `Post.save`: `unique_slugify(self, self.name)`. -/
def savePost (st : DBState) (pk : Nat) (name slug0 : List Char) : Option DBState :=
  (saveGlobalRow st.posts pk name slug0).map (fun t => { st with posts := t })

/-- `Bank.save`: `unique_slugify(self, self.name)`. -/
def saveBank (st : DBState) (pk : Nat) (name slug0 : List Char) : Option DBState :=
  (saveGlobalRow st.banks pk name slug0).map (fun t => { st with banks := t })

/-- `BankBranch.save`: `unique_slugify(self, f"{self.bank.name} {self.name}",
queryset=BankBranch.objects.filter(bank=self.bank))`; `bankName` is
`self.bank.name`. -/
def saveBankBranch (st : DBState) (pk bank : Nat) (bankName name slug0 : List Char) :
    Option DBState :=
  (saveScopedRow st.branches pk bank (bankName ++ chars " " ++ name) slug0).map
    (fun t => { st with branches := t })

/-- `SpecificWork.save`: `unique_slugify(self, self.code)`. -/
def saveSpecificWork (st : DBState) (pk : Nat) (code slug0 : List Char) : Option DBState :=
  (saveGlobalRow st.works pk code slug0).map (fun t => { st with works := t })

/-- `Person.save`: the slug base is `f"{self.name} {self.computer_code}"` when
`computer_code` is non-empty, else `self.name`. -/
def savePerson (st : DBState) (pk : Nat) (name computer_code slug0 : List Char) :
    Option DBState :=
  (saveGlobalRow st.persons pk
      (if computer_code ≠ [] then name ++ chars " " ++ computer_code else name)
      slug0).map
    (fun t => { st with persons := t })

/-- One successful `save` of any of the slugged models. -/
inductive SlugStep : DBState → DBState → Prop
  | province : ∀ st st' pk name slug0, saveProvince st pk name slug0 = some st' →
      SlugStep st st'
  | district : ∀ st st' pk province name slug0,
      saveDistrict st pk province name slug0 = some st' → SlugStep st st'
  | municipality : ∀ st st' pk district name slug0,
      saveMunicipality st pk district name slug0 = some st' → SlugStep st st'
  | ward : ∀ st st' pk municipality ward_no slug0,
      saveWard st pk municipality ward_no slug0 = some st' → SlugStep st st'
  | post : ∀ st st' pk name slug0, savePost st pk name slug0 = some st' → SlugStep st st'
  | bank : ∀ st st' pk name slug0, saveBank st pk name slug0 = some st' → SlugStep st st'
  | branch : ∀ st st' pk bank bankName name slug0,
      saveBankBranch st pk bank bankName name slug0 = some st' → SlugStep st st'
  | work : ∀ st st' pk code slug0, saveSpecificWork st pk code slug0 = some st' →
      SlugStep st st'
  | person : ∀ st st' pk name computer_code slug0,
      savePerson st pk name computer_code slug0 = some st' → SlugStep st st'

/-- The states reachable from the empty database by the models' `save`s. -/
inductive SlugReach : DBState → Prop
  | init : SlugReach emptyDB
  | step : ∀ st st', SlugReach st → SlugStep st st' → SlugReach st'

/-- No two rows of a globally-slugged table have equal slugs. -/
def GUnique (t : List GRow) : Prop :=
  ∀ x ∈ t, ∀ y ∈ t, x.pk ≠ y.pk → x.slug ≠ y.slug

/-- No two rows of a scoped table with the same parent have equal slugs. -/
def SUnique (t : List SRow) : Prop :=
  ∀ x ∈ t, ∀ y ∈ t, x.pk ≠ y.pk → x.scope = y.scope → x.slug ≠ y.slug

theorem mem_upsertG {t : List GRow} {r z : GRow} (hz : z ∈ upsertG t r) :
    z = r ∨ (z ∈ t ∧ z.pk ≠ r.pk) := by
  unfold upsertG at hz
  by_cases hany : t.any (fun x => x.pk = r.pk)
  · simp only [hany, if_true, List.mem_map] at hz
    obtain ⟨x, hx, hfx⟩ := hz
    by_cases hpk : x.pk = r.pk
    · left; simp only [hpk, if_true] at hfx; exact hfx.symm
    · right; simp only [hpk, if_false] at hfx; subst hfx; exact ⟨hx, hpk⟩
  · rw [if_neg hany, List.mem_append, List.mem_singleton] at hz
    rcases hz with hz | hz
    · right
      refine ⟨hz, fun hpk => ?_⟩
      exact hany (List.any_eq_true.mpr ⟨z, hz, by simpa using hpk⟩)
    · left; exact hz

theorem mem_upsertS {t : List SRow} {r z : SRow} (hz : z ∈ upsertS t r) :
    z = r ∨ (z ∈ t ∧ z.pk ≠ r.pk) := by
  unfold upsertS at hz
  by_cases hany : t.any (fun x => x.pk = r.pk)
  · simp only [hany, if_true, List.mem_map] at hz
    obtain ⟨x, hx, hfx⟩ := hz
    by_cases hpk : x.pk = r.pk
    · left; simp only [hpk, if_true] at hfx; exact hfx.symm
    · right; simp only [hpk, if_false] at hfx; subst hfx; exact ⟨hx, hpk⟩
  · rw [if_neg hany, List.mem_append, List.mem_singleton] at hz
    rcases hz with hz | hz
    · right
      refine ⟨hz, fun hpk => ?_⟩
      exact hany (List.any_eq_true.mpr ⟨z, hz, by simpa using hpk⟩)
    · left; exact hz

theorem saveGlobalRow_pres {t t' : List GRow} {pk : Nat} {base slug0 : List Char}
    (hu : GUnique t) (hs : saveGlobalRow t pk base slug0 = some t') : GUnique t' := by
  unfold saveGlobalRow at hs
  by_cases hchk : (t.filter (fun x => x.pk ≠ pk)).any
      (fun x => x.slug = chosenSlugG t pk base slug0)
  · rw [if_pos hchk] at hs; cases hs
  · rw [if_neg hchk] at hs
    injection hs with hs
    subst hs
    have hfree : ∀ x ∈ t, x.pk ≠ pk → x.slug ≠ chosenSlugG t pk base slug0 := by
      intro x hx hxpk hxs
      exact hchk (List.any_eq_true.mpr
        ⟨x, List.mem_filter.mpr ⟨hx, by simpa using hxpk⟩, by simpa using hxs⟩)
    intro x hx y hy hpk
    rcases mem_upsertG hx with rfl | ⟨hxt, hxr⟩ <;>
      rcases mem_upsertG hy with rfl | ⟨hyt, hyr⟩
    · exact absurd rfl hpk
    · exact fun h => hfree y hyt hyr h.symm
    · exact hfree x hxt hxr
    · exact hu x hxt y hyt hpk

theorem saveScopedRow_pres {t t' : List SRow} {pk scope : Nat} {base slug0 : List Char}
    (hu : SUnique t) (hs : saveScopedRow t pk scope base slug0 = some t') : SUnique t' := by
  unfold saveScopedRow at hs
  by_cases hchk : (t.filter (fun x => x.scope = scope ∧ x.pk ≠ pk)).any
      (fun x => x.slug = chosenSlugS t pk scope base slug0)
  · rw [if_pos hchk] at hs; cases hs
  · rw [if_neg hchk] at hs
    injection hs with hs
    subst hs
    have hfree : ∀ x ∈ t, x.scope = scope → x.pk ≠ pk →
        x.slug ≠ chosenSlugS t pk scope base slug0 := by
      intro x hx hxsc hxpk hxs
      refine hchk (List.any_eq_true.mpr
        ⟨x, List.mem_filter.mpr ⟨hx, ?_⟩, by simpa using hxs⟩)
      simp only [decide_eq_true_eq]
      exact ⟨hxsc, hxpk⟩
    intro x hx y hy hpk hsc
    rcases mem_upsertS hx with rfl | ⟨hxt, hxr⟩ <;>
      rcases mem_upsertS hy with rfl | ⟨hyt, hyr⟩
    · exact absurd rfl hpk
    · exact fun h => hfree y hyt (by simpa using hsc.symm) hyr h.symm
    · exact hfree x hxt (by simpa using hsc) hxr
    · exact hu x hxt y hyt hpk hsc

/-- The scoped-slug-uniqueness invariant over the whole schema. -/
def SlugInv (st : DBState) : Prop :=
  SUnique st.districts ∧ SUnique st.municipalities ∧ SUnique st.wards ∧
    SUnique st.branches ∧ GUnique st.provinces ∧ GUnique st.posts ∧
    GUnique st.banks ∧ GUnique st.works ∧ GUnique st.persons

theorem slugStep_pres {st st' : DBState} (hinv : SlugInv st) (hstep : SlugStep st st') :
    SlugInv st' := by
  obtain ⟨hd, hm, hw, hbr, hp, hpo, hb, hwk, hpe⟩ := hinv
  cases hstep with
  | province pk name slug0 h =>
    obtain ⟨t, ht, rfl⟩ := Option.map_eq_some'.mp h
    exact ⟨hd, hm, hw, hbr, saveGlobalRow_pres hp ht, hpo, hb, hwk, hpe⟩
  | district pk province name slug0 h =>
    obtain ⟨t, ht, rfl⟩ := Option.map_eq_some'.mp h
    exact ⟨saveScopedRow_pres hd ht, hm, hw, hbr, hp, hpo, hb, hwk, hpe⟩
  | municipality pk district name slug0 h =>
    obtain ⟨t, ht, rfl⟩ := Option.map_eq_some'.mp h
    exact ⟨hd, saveScopedRow_pres hm ht, hw, hbr, hp, hpo, hb, hwk, hpe⟩
  | ward pk municipality ward_no slug0 h =>
    obtain ⟨t, ht, rfl⟩ := Option.map_eq_some'.mp h
    exact ⟨hd, hm, saveScopedRow_pres hw ht, hbr, hp, hpo, hb, hwk, hpe⟩
  | post pk name slug0 h =>
    obtain ⟨t, ht, rfl⟩ := Option.map_eq_some'.mp h
    exact ⟨hd, hm, hw, hbr, hp, saveGlobalRow_pres hpo ht, hb, hwk, hpe⟩
  | bank pk name slug0 h =>
    obtain ⟨t, ht, rfl⟩ := Option.map_eq_some'.mp h
    exact ⟨hd, hm, hw, hbr, hp, hpo, saveGlobalRow_pres hb ht, hwk, hpe⟩
  | branch pk bank bankName name slug0 h =>
    obtain ⟨t, ht, rfl⟩ := Option.map_eq_some'.mp h
    exact ⟨hd, hm, hw, saveScopedRow_pres hbr ht, hp, hpo, hb, hwk, hpe⟩
  | work pk code slug0 h =>
    obtain ⟨t, ht, rfl⟩ := Option.map_eq_some'.mp h
    exact ⟨hd, hm, hw, hbr, hp, hpo, hb, saveGlobalRow_pres hwk ht, hpe⟩
  | person pk name computer_code slug0 h =>
    obtain ⟨t, ht, rfl⟩ := Option.map_eq_some'.mp h
    exact ⟨hd, hm, hw, hbr, hp, hpo, hb, hwk, saveGlobalRow_pres hpe ht⟩

theorem slugReach_inv {st : DBState} (h : SlugReach st) : SlugInv st := by
  induction h with
  | init =>
    refine ⟨?_, ?_, ?_, ?_, ?_, ?_, ?_, ?_, ?_⟩ <;> intro x hx <;> cases hx
  | step st st' _ hstep ih => exact slugStep_pres ih hstep

/-!
### Multi-valued contact and banking records and the primary flag

`BankAccount`, `PhoneNumber` and `EmailAddress` all carry
`is_primary = BooleanField(default=False)` and an identical `save`: when the
instance being saved is primary, first
`Model.objects.filter(person=self.person, is_primary=True)
.update(is_primary=False)` (a bulk `UPDATE` clearing every primary row of that
person, the instance's own row included), then write the instance's row.
-/

structure BankAccount where
  pk : Nat
  person : Nat
  bank : Nat
  branch : Option Nat
  account_number : List Char
  is_primary : Bool
deriving DecidableEq

structure PhoneNumber where
  pk : Nat
  person : Nat
  number : List Char
  is_primary : Bool
deriving DecidableEq

structure EmailAddress where
  pk : Nat
  person : Nat
  email : List Char
  is_primary : Bool
deriving DecidableEq

/-- Django's write of a model instance keyed by `key` (the pk): `UPDATE` the
row with this key if present, else `INSERT`. -/
def upsertBy {α : Type} (key : α → Nat) (t : List α) (r : α) : List α :=
  if t.any (fun x => key x = key r) then t.map (fun x => if key x = key r then r else x)
  else t ++ [r]

/-- `BankAccount.save`. -/
def saveBankAccount (t : List BankAccount) (r : BankAccount) : List BankAccount :=
  upsertBy BankAccount.pk
    (if r.is_primary then
      t.map (fun x => if x.person = r.person ∧ x.is_primary then { x with is_primary := false }
                      else x)
     else t) r

/-- `PhoneNumber.save`. -/
def savePhoneNumber (t : List PhoneNumber) (r : PhoneNumber) : List PhoneNumber :=
  upsertBy PhoneNumber.pk
    (if r.is_primary then
      t.map (fun x => if x.person = r.person ∧ x.is_primary then { x with is_primary := false }
                      else x)
     else t) r

/-- `EmailAddress.save`. -/
def saveEmailAddress (t : List EmailAddress) (r : EmailAddress) : List EmailAddress :=
  upsertBy EmailAddress.pk
    (if r.is_primary then
      t.map (fun x => if x.person = r.person ∧ x.is_primary then { x with is_primary := false }
                      else x)
     else t) r

/-- The three contact/banking tables of one database. -/
structure ContactState where
  accounts : List BankAccount
  phones : List PhoneNumber
  emails : List EmailAddress
deriving DecidableEq

/-- One `save` of a contact/banking record. -/
inductive ContactStep : ContactState → ContactState → Prop
  | account : ∀ st r, ContactStep st { st with accounts := saveBankAccount st.accounts r }
  | phone : ∀ st r, ContactStep st { st with phones := savePhoneNumber st.phones r }
  | email : ∀ st r, ContactStep st { st with emails := saveEmailAddress st.emails r }

/-- The states reachable from the empty database by the models' `save`s. -/
inductive ContactReach : ContactState → Prop
  | init : ContactReach ⟨[], [], []⟩
  | step : ∀ st st', ContactReach st → ContactStep st st' → ContactReach st'

/-- At most one row per person has the primary flag, stated through the row
projections `key` (pk), `person` and `prim` (is_primary). -/
def AtMostOnePrimary {α : Type} (key person : α → Nat) (prim : α → Bool)
    (t : List α) : Prop :=
  ∀ x ∈ t, ∀ y ∈ t, person x = person y → prim x = true → prim y = true → key x = key y

/-- Every person owning at least one row owns exactly one row with the primary
flag. -/
def ExactlyOnePrimary {α : Type} (key person : α → Nat) (prim : α → Bool)
    (t : List α) : Prop :=
  ∀ p : Nat, (∃ x ∈ t, person x = p) →
    ∃ x ∈ t, person x = p ∧ prim x = true ∧
      ∀ y ∈ t, person y = p → prim y = true → key y = key x

theorem mem_upsertBy {α : Type} {key : α → Nat} {t : List α} {r z : α}
    (hz : z ∈ upsertBy key t r) : z = r ∨ (z ∈ t ∧ key z ≠ key r) := by
  unfold upsertBy at hz
  by_cases hany : t.any (fun x => key x = key r)
  · simp only [hany, if_true, List.mem_map] at hz
    obtain ⟨x, hx, hfx⟩ := hz
    by_cases hpk : key x = key r
    · left; simp only [hpk, if_true] at hfx; exact hfx.symm
    · right; simp only [hpk, if_false] at hfx; subst hfx; exact ⟨hx, hpk⟩
  · rw [if_neg hany, List.mem_append, List.mem_singleton] at hz
    rcases hz with hz | hz
    · right
      refine ⟨hz, fun hpk => ?_⟩
      exact hany (List.any_eq_true.mpr ⟨z, hz, by simpa using hpk⟩)
    · left; exact hz

theorem self_mem_upsertBy {α : Type} (key : α → Nat) (t : List α) (r : α) :
    r ∈ upsertBy key t r := by
  unfold upsertBy
  by_cases hany : t.any (fun x => key x = key r)
  · rw [if_pos hany]
    obtain ⟨x, hx, hkey⟩ := List.any_eq_true.mp hany
    simp only [decide_eq_true_eq] at hkey
    exact List.mem_map.mpr ⟨x, hx, by simp [hkey]⟩
  · rw [if_neg hany]
    exact List.mem_append.mpr (Or.inr (List.mem_singleton.mpr rfl))

/-- The shape shared by the three `save`s, through the row projections: clear
the person's primary rows when the saved instance is primary, then upsert. -/
def savePrimary {α : Type} (key person : α → Nat) (prim : α → Bool) (setF : α → α)
    (t : List α) (r : α) : List α :=
  upsertBy key
    (if prim r then
      t.map (fun x => if person x = person r ∧ prim x then setF x else x)
     else t) r

theorem saveBankAccount_eq (t : List BankAccount) (r : BankAccount) :
    saveBankAccount t r =
      savePrimary BankAccount.pk BankAccount.person BankAccount.is_primary
        (fun x => { x with is_primary := false }) t r := rfl

theorem savePhoneNumber_eq (t : List PhoneNumber) (r : PhoneNumber) :
    savePhoneNumber t r =
      savePrimary PhoneNumber.pk PhoneNumber.person PhoneNumber.is_primary
        (fun x => { x with is_primary := false }) t r := rfl

theorem saveEmailAddress_eq (t : List EmailAddress) (r : EmailAddress) :
    saveEmailAddress t r =
      savePrimary EmailAddress.pk EmailAddress.person EmailAddress.is_primary
        (fun x => { x with is_primary := false }) t r := rfl

/-- Every row of the cleared table comes from a row of `t` with the same key
and person, primary only if its source was. -/
theorem mem_cleared {α : Type} {key person : α → Nat} {prim : α → Bool} {setF : α → α}
    (hkey : ∀ x, key (setF x) = key x) (hperson : ∀ x, person (setF x) = person x)
    (hprim : ∀ x, prim (setF x) = false) {t : List α} {r : α} :
    ∀ z ∈ (if prim r then
        t.map (fun x => if person x = person r ∧ prim x then setF x else x) else t),
      ∃ w ∈ t, key z = key w ∧ person z = person w ∧ (prim z = true → prim w = true) := by
  intro z hz
  by_cases hrp : prim r = true
  · rw [if_pos hrp] at hz
    obtain ⟨w, hw, hfw⟩ := List.mem_map.mp hz
    by_cases hc : person w = person r ∧ prim w = true
    · rw [if_pos (by simpa using hc)] at hfw
      subst hfw
      exact ⟨w, hw, hkey w, hperson w, fun h => by rw [hprim w] at h; cases h⟩
    · rw [if_neg (by simpa using hc)] at hfw
      subst hfw
      exact ⟨w, hw, rfl, rfl, fun h => h⟩
  · rw [if_neg hrp] at hz
    exact ⟨z, hz, rfl, rfl, fun h => h⟩

/-- After the bulk `update(is_primary=False)`, no row of the saved instance's
person is primary. -/
theorem cleared_not_primary {α : Type} {person : α → Nat} {prim : α → Bool}
    {setF : α → α} (hprim : ∀ x, prim (setF x) = false) {t : List α} {r : α}
    (hr : prim r = true) :
    ∀ z ∈ (if prim r then
        t.map (fun x => if person x = person r ∧ prim x then setF x else x) else t),
      person z = person r → prim z = false := by
  intro z hz hzp
  rw [if_pos hr] at hz
  obtain ⟨w, hw, hfw⟩ := List.mem_map.mp hz
  by_cases hc : person w = person r ∧ prim w = true
  · rw [if_pos (by simpa using hc)] at hfw
    subst hfw
    exact hprim w
  · rw [if_neg (by simpa using hc)] at hfw
    subst hfw
    rcases not_and_or.mp hc with hcp | hcb
    · exact absurd hzp hcp
    · exact Bool.not_eq_true _ ▸ Bool.eq_false_iff.mpr (fun h => hcb h)

theorem savePrimary_atMostOne {α : Type} {key person : α → Nat} {prim : α → Bool}
    {setF : α → α}
    (hkey : ∀ x, key (setF x) = key x) (hperson : ∀ x, person (setF x) = person x)
    (hprim : ∀ x, prim (setF x) = false) {t : List α} (r : α)
    (hu : AtMostOnePrimary key person prim t) :
    AtMostOnePrimary key person prim (savePrimary key person prim setF t r) := by
  intro x hx y hy hpp hpx hpy
  unfold savePrimary at hx hy
  rcases mem_upsertBy hx with rfl | ⟨hxt, hxr⟩ <;>
    rcases mem_upsertBy hy with rfl | ⟨hyt, hyr⟩
  · rfl
  · have hrp : prim x = true := hpx
    have := cleared_not_primary hprim hrp y hyt hpp.symm
    rw [hpy] at this; cases this
  · have hrp : prim y = true := hpy
    have := cleared_not_primary hprim hrp x hxt hpp
    rw [hpx] at this; cases this
  · obtain ⟨w1, hw1, hk1, hp1, hb1⟩ := mem_cleared hkey hperson hprim x hxt
    obtain ⟨w2, hw2, hk2, hp2, hb2⟩ := mem_cleared hkey hperson hprim y hyt
    rw [hk1, hk2]
    exact hu w1 hw1 w2 hw2 (by rw [← hp1, ← hp2]; exact hpp) (hb1 hpx) (hb2 hpy)

/-- Saving a primary instance leaves its row primary and every other row of
the same person non-primary. -/
theorem savePrimary_spec {α : Type} {key person : α → Nat} {prim : α → Bool}
    {setF : α → α} (hprim : ∀ x, prim (setF x) = false) {t : List α} {r : α}
    (hr : prim r = true) :
    r ∈ savePrimary key person prim setF t r ∧
    (∀ x ∈ savePrimary key person prim setF t r, key x = key r → x = r) ∧
    (∀ x ∈ savePrimary key person prim setF t r,
      key x ≠ key r → person x = person r → prim x = false) := by
  refine ⟨self_mem_upsertBy _ _ _, ?_, ?_⟩
  · intro x hx hk
    rcases mem_upsertBy hx with rfl | ⟨_, hxr⟩
    · rfl
    · exact absurd hk hxr
  · intro x hx hk hp
    rcases mem_upsertBy hx with rfl | ⟨hxt, _⟩
    · exact absurd rfl hk
    · exact cleared_not_primary hprim hr x hxt hp

/-- The at-most-one-primary invariant over the three tables. -/
def ContactInv (st : ContactState) : Prop :=
  AtMostOnePrimary BankAccount.pk BankAccount.person BankAccount.is_primary st.accounts ∧
  AtMostOnePrimary PhoneNumber.pk PhoneNumber.person PhoneNumber.is_primary st.phones ∧
  AtMostOnePrimary EmailAddress.pk EmailAddress.person EmailAddress.is_primary st.emails

theorem contactStep_pres {st st' : ContactState} (hinv : ContactInv st)
    (hstep : ContactStep st st') : ContactInv st' := by
  obtain ⟨ha, hp, he⟩ := hinv
  cases hstep with
  | account r =>
    refine ⟨?_, hp, he⟩
    rw [saveBankAccount_eq]
    exact @savePrimary_atMostOne BankAccount BankAccount.pk BankAccount.person
      BankAccount.is_primary (fun x => { x with is_primary := false })
      (fun _ => rfl) (fun _ => rfl) (fun _ => rfl) st.accounts r ha
  | phone r =>
    refine ⟨ha, ?_, he⟩
    rw [savePhoneNumber_eq]
    exact @savePrimary_atMostOne PhoneNumber PhoneNumber.pk PhoneNumber.person
      PhoneNumber.is_primary (fun x => { x with is_primary := false })
      (fun _ => rfl) (fun _ => rfl) (fun _ => rfl) st.phones r hp
  | email r =>
    refine ⟨ha, hp, ?_⟩
    rw [saveEmailAddress_eq]
    exact @savePrimary_atMostOne EmailAddress EmailAddress.pk EmailAddress.person
      EmailAddress.is_primary (fun x => { x with is_primary := false })
      (fun _ => rfl) (fun _ => rfl) (fun _ => rfl) st.emails r he

theorem contactReach_inv {st : ContactState} (h : ContactReach st) : ContactInv st := by
  induction h with
  | init => refine ⟨?_, ?_, ?_⟩ <;> intro x hx <;> cases hx
  | step st st' _ hstep ih => exact contactStep_pres ih hstep

/-!
### `gregorian_to_nepali_string`

The Bikram Sambat conversion is an external library
(`nepali_datetime.date.from_datetime_date`), modelled as a pure parameter
`bsconv` on the local date that returns `none` when it raises; `avail` is
`_NEPALI_AVAILABLE`.  Timezone handling (`make_aware` / `localtime`) is the
passage from `dt` to its local datetime, so the argument below is already the
local value; a `none` input is a null datetime (`if not dt: return ""`).
-/

/-- A local Gregorian datetime value. -/
structure GDateTime where
  year : Nat
  month : Nat
  day : Nat
  hour : Nat
  minute : Nat
  second : Nat
deriving DecidableEq

/-- Printf `%0wd`: decimal digits left-padded with zeros to width `w`. -/
def padZeros (w n : Nat) : List Char :=
  List.replicate (w - (natChars n).length) '0' ++ natChars n

/-- `strftime('%H:%M:%S')`. -/
def fmtTime (d : GDateTime) : List Char :=
  padZeros 2 d.hour ++ chars ":" ++ padZeros 2 d.minute ++ chars ":" ++ padZeros 2 d.second

/-- `strftime('%Y-%m-%d %H:%M:%S')`. -/
def fmtGregorian (d : GDateTime) : List Char :=
  padZeros 4 d.year ++ chars "-" ++ padZeros 2 d.month ++ chars "-" ++ padZeros 2 d.day
    ++ chars " " ++ fmtTime d

/-- `gregorian_to_nepali_string(dt)`. -/
def gregorianToNepaliString (avail : Bool)
    (bsconv : Nat → Nat → Nat → Option (Nat × Nat × Nat)) (dt : Option GDateTime) :
    List Char :=
  match dt with
  | none => []
  | some d =>
    if avail then
      match bsconv d.year d.month d.day with
      | some (ny, nm, nd) =>
        padZeros 4 ny ++ chars "-" ++ padZeros 2 nm ++ chars "-" ++ padZeros 2 nd
          ++ chars " " ++ fmtTime d
      | none => fmtGregorian d
    else fmtGregorian d

/-!
### `Person`, soft delete, restore, search, full address
-/

/-- A stored `Person` row, audit fields included. -/
structure PersonRow where
  pk : Nat
  post : Nat
  name : List Char
  photo : Option (List Char)
  computer_code : List Char
  identity_no : List Char
  slug : List Char
  is_working : Bool
  branch_address : Option Nat
  is_active : Bool
  deleted_at : Option GDateTime
  created_at : GDateTime
  updated_at : GDateTime
  created_at_nepali : List Char
  updated_at_nepali : List Char
  created_by : Option Nat
deriving DecidableEq

/-- `Person.soft_delete`: set `is_active = False`, `deleted_at = timezone.now()`
and `save(update_fields=['is_active', 'deleted_at'])`.  `AuditableModel.save`
(the instance's pk is set, so its non-new branch runs) then recomputes and
persists `updated_at_nepali` from `updated_at` — which itself is untouched
because `auto_now` only fires for fields listed in `update_fields`. -/
def softDeletePerson (avail : Bool) (bsconv : Nat → Nat → Nat → Option (Nat × Nat × Nat))
    (now : GDateTime) (r : PersonRow) : PersonRow :=
  { r with is_active := false, deleted_at := some now,
           updated_at_nepali := gregorianToNepaliString avail bsconv (some r.updated_at) }

/-- `Person.restore`: set `is_active = True`, `deleted_at = None` and
`save(update_fields=['is_active', 'deleted_at'])`. -/
def restorePerson (avail : Bool) (bsconv : Nat → Nat → Nat → Option (Nat × Nat × Nat))
    (r : PersonRow) : PersonRow :=
  { r with is_active := true, deleted_at := none,
           updated_at_nepali := gregorianToNepaliString avail bsconv (some r.updated_at) }

/-- Admin `action_soft_delete`:
`queryset.update(is_active=False, deleted_at=now)` — a bulk SQL update over
the selected rows (`sel` on pks) that bypasses the model `save`. -/
def actionSoftDelete (t : List PersonRow) (sel : Nat → Bool) (now : GDateTime) :
    List PersonRow :=
  t.map (fun r => if sel r.pk then { r with is_active := false, deleted_at := some now }
                  else r)

/-- Admin `action_restore`: `queryset.update(is_active=True, deleted_at=None)`. -/
def actionRestore (t : List PersonRow) (sel : Nat → Bool) : List PersonRow :=
  t.map (fun r => if sel r.pk then { r with is_active := true, deleted_at := none } else r)

/-- Django `icontains`: case-insensitive substring test. -/
def icontains (hay needle : List Char) : Bool :=
  decide ((needle.map Char.toLower) <:+: (hay.map Char.toLower))

/-- `PersonManager.search(q)`: the whole queryset when `q` is falsy (Python
`None`, modelled `none`, or the empty string), otherwise the rows matching
`Q(name__icontains=q) | Q(identity_no__icontains=q) |
Q(computer_code__icontains=q)`. -/
def personSearch (t : List PersonRow) (q : Option (List Char)) : List PersonRow :=
  match q with
  | none => t
  | some qs =>
    if qs = [] then t
    else t.filter (fun r =>
      icontains r.name qs || icontains r.identity_no qs || icontains r.computer_code qs)

/-- `Province` as read by `full_address`. -/
structure ProvinceInfo where
  name : List Char
deriving DecidableEq

/-- `District` with its `province` foreign key. -/
structure DistrictInfo where
  name : List Char
  province : ProvinceInfo
deriving DecidableEq

/-- `Municipality` with its `district` foreign key. -/
structure MunicipalityInfo where
  name : List Char
  district : DistrictInfo
deriving DecidableEq

/-- `Ward` with its `municipality` foreign key. -/
structure WardInfo where
  ward_no : Nat
  municipality : MunicipalityInfo
deriving DecidableEq

/-- `Person.full_address`: `branch_address` is the nullable `Ward` foreign
key; the chain ward → municipality → district → province is followed and
rendered as `f"Ward {w.ward_no}, {m.name}, {d.name}, {p.name}"`, the empty
string when `branch_address` is null. -/
def personFullAddress (branch_address : Option WardInfo) : List Char :=
  match branch_address with
  | some w =>
    chars "Ward " ++ natChars w.ward_no ++ chars ", " ++ w.municipality.name ++ chars ", "
      ++ w.municipality.district.name ++ chars ", "
      ++ w.municipality.district.province.name
  | none => []

/-!
## Claims
-/

/-- C1, counterexample: the state obtained by saving one non-primary phone
number into the empty database is reachable, yet its person owns a phone
record and no primary one — "exactly one primary" fails; the `save`s only
guarantee "at most one". -/
theorem c1_counterexample :
    ContactReach ⟨[], [⟨1, 7, chars "1", false⟩], []⟩ ∧
    ¬ (ExactlyOnePrimary BankAccount.pk BankAccount.person BankAccount.is_primary
         (ContactState.accounts ⟨[], [⟨1, 7, chars "1", false⟩], []⟩) ∧
       ExactlyOnePrimary PhoneNumber.pk PhoneNumber.person PhoneNumber.is_primary
         (ContactState.phones ⟨[], [⟨1, 7, chars "1", false⟩], []⟩) ∧
       ExactlyOnePrimary EmailAddress.pk EmailAddress.person EmailAddress.is_primary
         (ContactState.emails ⟨[], [⟨1, 7, chars "1", false⟩], []⟩)) := by
  constructor
  · exact ContactReach.step _ _ ContactReach.init
      (ContactStep.phone ⟨[], [], []⟩ ⟨1, 7, chars "1", false⟩)
  · rintro ⟨-, hph, -⟩
    obtain ⟨x, hx, hxp, hxprim, -⟩ := hph 7 ⟨⟨1, 7, chars "1", false⟩, by simp, rfl⟩
    rw [List.mem_singleton] at hx
    subst hx
    cases hxprim

/-- C1, amended: in every state reachable by the models' `save`s, each person
has at most one primary bank account, at most one primary phone number and at
most one primary email address (rows of one person with the primary flag all
share one pk).  "Exactly one" fails: a person all of whose records were saved
non-primary has none. -/
theorem c1_at_most_one_primary (st : ContactState) (h : ContactReach st) :
    AtMostOnePrimary BankAccount.pk BankAccount.person BankAccount.is_primary st.accounts ∧
    AtMostOnePrimary PhoneNumber.pk PhoneNumber.person PhoneNumber.is_primary st.phones ∧
    AtMostOnePrimary EmailAddress.pk EmailAddress.person EmailAddress.is_primary st.emails :=
  contactReach_inv h

/-- C1, witness: the amended invariant evaluated on the reachable state
holding one primary phone number. -/
theorem c1_at_most_one_primary_witness :
    AtMostOnePrimary BankAccount.pk BankAccount.person BankAccount.is_primary
      (ContactState.accounts ⟨[], [⟨1, 7, chars "1", true⟩], []⟩) ∧
    AtMostOnePrimary PhoneNumber.pk PhoneNumber.person PhoneNumber.is_primary
      (ContactState.phones ⟨[], [⟨1, 7, chars "1", true⟩], []⟩) ∧
    AtMostOnePrimary EmailAddress.pk EmailAddress.person EmailAddress.is_primary
      (ContactState.emails ⟨[], [⟨1, 7, chars "1", true⟩], []⟩) :=
  c1_at_most_one_primary ⟨[], [⟨1, 7, chars "1", true⟩], []⟩
    (ContactReach.step _ _ ContactReach.init
      (ContactStep.phone ⟨[], [], []⟩ ⟨1, 7, chars "1", true⟩))

/-- C2: in every state reachable by the models' `save`s, no two districts of
one province, municipalities of one district, wards of one municipality, or
bank branches of one bank have equal slugs, and province, post, bank,
specific-work and person slugs are globally unique. -/
theorem c2_scoped_slug_uniqueness (st : DBState) (h : SlugReach st) :
    SUnique st.districts ∧ SUnique st.municipalities ∧ SUnique st.wards ∧
    SUnique st.branches ∧ GUnique st.provinces ∧ GUnique st.posts ∧
    GUnique st.banks ∧ GUnique st.works ∧ GUnique st.persons :=
  slugReach_inv h

/-- A reachable state used by C2's witness: a province saved with a preset
slug, then a district of it. -/
def dbSt1 : DBState := ⟨[⟨1, chars "p"⟩], [], [], [], [], [], [], [], []⟩

def dbSt2 : DBState := ⟨[⟨1, chars "p"⟩], [⟨1, 1, chars "q"⟩], [], [], [], [], [], [], []⟩

/-- C2, witness: the invariant evaluated on a two-save reachable state. -/
theorem c2_scoped_slug_uniqueness_witness :
    SUnique dbSt2.districts ∧ SUnique dbSt2.municipalities ∧ SUnique dbSt2.wards ∧
    SUnique dbSt2.branches ∧ GUnique dbSt2.provinces ∧ GUnique dbSt2.posts ∧
    GUnique dbSt2.banks ∧ GUnique dbSt2.works ∧ GUnique dbSt2.persons :=
  c2_scoped_slug_uniqueness dbSt2
    (SlugReach.step dbSt1 dbSt2
      (SlugReach.step emptyDB dbSt1 SlugReach.init
        (SlugStep.province emptyDB dbSt1 1 (chars "koshi") (chars "p") rfl))
      (SlugStep.district dbSt1 dbSt2 1 1 (chars "d") (chars "q") rfl))

/-- C3: saving a record `r` with `is_primary = True` leaves `r` in the table,
leaves the row keyed by `r`'s pk equal to `r` (primary in particular), and
leaves every other record of the same person non-primary — for each of
`BankAccount`, `PhoneNumber` and `EmailAddress`. -/
theorem c3_primary_save_clears_siblings
    (ta : List BankAccount) (ra : BankAccount) (ha : ra.is_primary = true)
    (tp : List PhoneNumber) (rp : PhoneNumber) (hp : rp.is_primary = true)
    (te : List EmailAddress) (rb : EmailAddress) (he : rb.is_primary = true) :
    (ra ∈ saveBankAccount ta ra ∧
      (∀ x ∈ saveBankAccount ta ra, x.pk = ra.pk → x = ra) ∧
      (∀ x ∈ saveBankAccount ta ra, x.pk ≠ ra.pk → x.person = ra.person →
        x.is_primary = false)) ∧
    (rp ∈ savePhoneNumber tp rp ∧
      (∀ x ∈ savePhoneNumber tp rp, x.pk = rp.pk → x = rp) ∧
      (∀ x ∈ savePhoneNumber tp rp, x.pk ≠ rp.pk → x.person = rp.person →
        x.is_primary = false)) ∧
    (rb ∈ saveEmailAddress te rb ∧
      (∀ x ∈ saveEmailAddress te rb, x.pk = rb.pk → x = rb) ∧
      (∀ x ∈ saveEmailAddress te rb, x.pk ≠ rb.pk → x.person = rb.person →
        x.is_primary = false)) := by
  refine ⟨?_, ?_, ?_⟩
  · rw [saveBankAccount_eq]
    exact @savePrimary_spec BankAccount BankAccount.pk BankAccount.person
      BankAccount.is_primary (fun x => { x with is_primary := false })
      (fun _ => rfl) ta ra ha
  · rw [savePhoneNumber_eq]
    exact @savePrimary_spec PhoneNumber PhoneNumber.pk PhoneNumber.person
      PhoneNumber.is_primary (fun x => { x with is_primary := false })
      (fun _ => rfl) tp rp hp
  · rw [saveEmailAddress_eq]
    exact @savePrimary_spec EmailAddress EmailAddress.pk EmailAddress.person
      EmailAddress.is_primary (fun x => { x with is_primary := false })
      (fun _ => rfl) te rb he

/-- Concrete records for C3's witness. -/
def ba0 : BankAccount := ⟨1, 5, 2, none, chars "12", true⟩

def ph0 : PhoneNumber := ⟨1, 5, chars "98", true⟩

def em0 : EmailAddress := ⟨1, 5, chars "ab", true⟩

/-- C3, witness: the statement evaluated on one primary record saved into each
empty table. -/
theorem c3_primary_save_clears_siblings_witness :
    (ba0 ∈ saveBankAccount [] ba0 ∧
      (∀ x ∈ saveBankAccount [] ba0, x.pk = ba0.pk → x = ba0) ∧
      (∀ x ∈ saveBankAccount [] ba0, x.pk ≠ ba0.pk → x.person = ba0.person →
        x.is_primary = false)) ∧
    (ph0 ∈ savePhoneNumber [] ph0 ∧
      (∀ x ∈ savePhoneNumber [] ph0, x.pk = ph0.pk → x = ph0) ∧
      (∀ x ∈ savePhoneNumber [] ph0, x.pk ≠ ph0.pk → x.person = ph0.person →
        x.is_primary = false)) ∧
    (em0 ∈ saveEmailAddress [] em0 ∧
      (∀ x ∈ saveEmailAddress [] em0, x.pk = em0.pk → x = em0) ∧
      (∀ x ∈ saveEmailAddress [] em0, x.pk ≠ em0.pk → x.person = em0.person →
        x.is_primary = false)) :=
  c3_primary_save_clears_siblings [] ba0 rfl [] ph0 rfl [] em0 rfl

/-- C4: `unique_slugify` assigns `slugify(value)[:180]` when no other record
of the scoping queryset (the instance's own pk excluded) has that slug, and
otherwise the first `base + separator + n`, `n = 1, 2, 3, …`, no other record
of the scoping queryset has. -/
theorem c4_unique_slugify_choice (t : List SRow) (pk scope : Nat) (value sep : List Char) :
    ((slugify value).take 180 ∉ takenScoped t pk scope →
      uniqueSlugify (takenScoped t pk scope) value sep = (slugify value).take 180) ∧
    ((slugify value).take 180 ∈ takenScoped t pk scope →
      ∃ n : Nat, 1 ≤ n ∧
        uniqueSlugify (takenScoped t pk scope) value sep =
          (slugify value).take 180 ++ sep ++ natChars n ∧
        ((slugify value).take 180 ++ sep ++ natChars n) ∉ takenScoped t pk scope ∧
        ∀ m : Nat, 1 ≤ m → m < n →
          ((slugify value).take 180 ++ sep ++ natChars m) ∈ takenScoped t pk scope) := by
  constructor
  · intro h
    unfold uniqueSlugify
    simp only [if_neg h]
  · intro h
    refine ⟨firstFreeIdx (takenScoped t pk scope) ((slugify value).take 180) sep,
      firstFreeIdx_pos _ _ _, ?_, ?_, ?_⟩
    · unfold uniqueSlugify
      simp only [if_pos h]
      rfl
    · exact firstFreeIdx_free _ _ _
    · intro m h1 hm
      exact firstFreeIdx_min _ _ _ m h1 hm

/-- Evaluation helper: when the base slug is taken but `base + sep + 1` is
free, `unique_slugify` returns `base + sep + 1`. -/
theorem uniqueSlugify_collision_one (taken : List (List Char)) (value sep : List Char)
    (h : (slugify value).take 180 ∈ taken)
    (h1 : ((slugify value).take 180 ++ sep ++ natChars 1) ∉ taken) :
    uniqueSlugify taken value sep = (slugify value).take 180 ++ sep ++ natChars 1 := by
  unfold uniqueSlugify
  simp only [if_pos h]
  have hfind : Nat.find (exists_free_candidate taken ((slugify value).take 180) sep) = 0 :=
    (Nat.find_eq_zero _).mpr h1
  unfold firstFreeIdx
  rw [hfind]
  rfl

set_option maxRecDepth 8192

/-- C5, refuted by evaluation: on a 190-character name whose 180-character
truncation is already taken, `unique_slugify` assigns the 182-character slug
`'a' * 180 + "-1"`, which does not fit the declared `max_length = 180` of the
slug fields — the collision suffix is appended after truncation without
re-truncating. -/
theorem c5_slug_exceeds_max_length :
    uniqueSlugify [List.replicate 180 'a'] (List.replicate 190 'a') (chars "-") =
      List.replicate 180 'a' ++ chars "-" ++ chars "1" ∧
    (uniqueSlugify [List.replicate 180 'a'] (List.replicate 190 'a') (chars "-")).length
      = 182 := by
  have hbase : (slugify (List.replicate 190 'a')).take 180 = List.replicate 180 'a' := by
    decide
  have hres : uniqueSlugify [List.replicate 180 'a'] (List.replicate 190 'a') (chars "-") =
      List.replicate 180 'a' ++ chars "-" ++ chars "1" := by
    have h := uniqueSlugify_collision_one [List.replicate 180 'a']
      (List.replicate 190 'a') (chars "-") (by rw [hbase]; exact List.mem_singleton.mpr rfl)
      (by rw [hbase]; decide)
    rw [hbase] at h
    exact h
  refine ⟨hres, ?_⟩
  rw [hres]
  simp [List.length_append, chars]

/-- C6: with the `nepali_datetime` library available and the conversion
succeeding, `gregorian_to_nepali_string` renders the Bikram Sambat date with
the local time as `"YYYY-MM-DD HH:MM:SS"`; when the library is unavailable or
the conversion raises, it falls back to the local datetime under the fixed
Gregorian format `'%Y-%m-%d %H:%M:%S'`. -/
theorem c6_nepali_datetime_display (avail : Bool)
    (bsconv : Nat → Nat → Nat → Option (Nat × Nat × Nat)) (d : GDateTime) :
    (∀ ny nm nd : Nat, avail = true → bsconv d.year d.month d.day = some (ny, nm, nd) →
      gregorianToNepaliString avail bsconv (some d) =
        padZeros 4 ny ++ chars "-" ++ padZeros 2 nm ++ chars "-" ++ padZeros 2 nd
          ++ chars " " ++ fmtTime d) ∧
    (avail = true → bsconv d.year d.month d.day = none →
      gregorianToNepaliString avail bsconv (some d) = fmtGregorian d) ∧
    (avail = false → gregorianToNepaliString avail bsconv (some d) = fmtGregorian d) := by
  refine ⟨?_, ?_, ?_⟩
  · intro ny nm nd ha hc
    subst ha
    simp [gregorianToNepaliString, hc]
  · intro ha hc
    subst ha
    simp [gregorianToNepaliString, hc]
  · intro ha
    subst ha
    simp [gregorianToNepaliString]

/-- C7: the admin soft-delete action sets `is_active = False` and
`deleted_at = now` on every selected record and the restore action sets
`is_active = True`, `deleted_at = None` on every selected record;
`Person.soft_delete` / `Person.restore` perform the same updates on a single
person (given the stored `updated_at_nepali` is the rendering of
`updated_at`, which every save maintains, the recomputation they additionally
run rewrites it unchanged). -/
theorem c7_soft_delete_restore_actions (t : List PersonRow) (sel : Nat → Bool)
    (now : GDateTime) (avail : Bool)
    (bsconv : Nat → Nat → Nat → Option (Nat × Nat × Nat)) (r : PersonRow) :
    (∀ x ∈ actionSoftDelete t sel now, sel x.pk = true →
      x.is_active = false ∧ x.deleted_at = some now) ∧
    (∀ x ∈ actionRestore t sel, sel x.pk = true →
      x.is_active = true ∧ x.deleted_at = none) ∧
    (r.updated_at_nepali = gregorianToNepaliString avail bsconv (some r.updated_at) →
      softDeletePerson avail bsconv now r =
        { r with is_active := false, deleted_at := some now } ∧
      restorePerson avail bsconv r =
        { r with is_active := true, deleted_at := none }) := by
  refine ⟨?_, ?_, ?_⟩
  · intro x hx hsel
    obtain ⟨w, hw, hfw⟩ := List.mem_map.mp hx
    by_cases hs : sel w.pk
    · rw [if_pos hs] at hfw
      subst hfw
      exact ⟨rfl, rfl⟩
    · rw [if_neg hs] at hfw
      subst hfw
      exact absurd hsel hs
  · intro x hx hsel
    obtain ⟨w, hw, hfw⟩ := List.mem_map.mp hx
    by_cases hs : sel w.pk
    · rw [if_pos hs] at hfw
      subst hfw
      exact ⟨rfl, rfl⟩
    · rw [if_neg hs] at hfw
      subst hfw
      exact absurd hsel hs
  · intro hup
    constructor
    · unfold softDeletePerson
      rw [← hup]
    · unfold restorePerson
      rw [← hup]

/-- C8: `Person.full_address` renders
`f"Ward {w.ward_no}, {m.name}, {d.name}, {p.name}"` along the
ward → municipality → district → province chain, and the empty string when
`branch_address` is null. -/
theorem c8_person_full_address (w : WardInfo) :
    personFullAddress (some w) =
      chars "Ward " ++ natChars w.ward_no ++ chars ", " ++ w.municipality.name
        ++ chars ", " ++ w.municipality.district.name ++ chars ", "
        ++ w.municipality.district.province.name ∧
    personFullAddress none = [] :=
  ⟨rfl, rfl⟩

/-- C9: `PersonManager.search(q)` returns the whole queryset when `q` is
`None` or empty, and otherwise exactly the persons whose `name`,
`identity_no` or `computer_code` contains `q` case-insensitively. -/
theorem c9_person_search (t : List PersonRow) (q : List Char) (r : PersonRow) :
    personSearch t none = t ∧
    personSearch t (some []) = t ∧
    (q ≠ [] →
      (r ∈ personSearch t (some q) ↔ r ∈ t ∧
        ((q.map Char.toLower <:+: r.name.map Char.toLower) ∨
         (q.map Char.toLower <:+: r.identity_no.map Char.toLower) ∨
         (q.map Char.toLower <:+: r.computer_code.map Char.toLower)))) := by
  refine ⟨rfl, rfl, ?_⟩
  intro hq
  simp only [personSearch]
  rw [if_neg hq, List.mem_filter]
  simp only [icontains, Bool.or_eq_true, decide_eq_true_eq]
  tauto

/-- The stored fields of a person other than `is_active` and `deleted_at`. -/
def personFrame (r : PersonRow) :=
  (r.pk, r.post, r.name, r.photo, r.computer_code, r.identity_no, r.slug,
   r.is_working, r.branch_address, r.created_at, r.updated_at,
   r.created_at_nepali, r.updated_at_nepali, r.created_by)

/-- C10: `Person.soft_delete` and `Person.restore` change only `is_active` and
`deleted_at`: every other stored field — name, slug, identity_no,
computer_code, post, photo, branch_address and the audit fields — is
unchanged (for `updated_at_nepali`, because the recomputation these methods
run renders the untouched `updated_at`, which the stored value already
equals). -/
theorem c10_soft_delete_frame (avail : Bool)
    (bsconv : Nat → Nat → Nat → Option (Nat × Nat × Nat)) (now : GDateTime)
    (r : PersonRow)
    (hup : r.updated_at_nepali = gregorianToNepaliString avail bsconv (some r.updated_at)) :
    personFrame (softDeletePerson avail bsconv now r) = personFrame r ∧
    personFrame (restorePerson avail bsconv r) = personFrame r := by
  constructor
  · unfold personFrame softDeletePerson
    rw [← hup]
  · unfold personFrame restorePerson
    rw [← hup]

/-- A person row whose stored `updated_at_nepali` renders its `updated_at`,
used by C10's witness. -/
def pr0 : PersonRow :=
  ⟨1, 2, chars "n", none, chars "3", chars "i", chars "s", true, none, true, none,
   ⟨2024, 1, 1, 0, 0, 0⟩, ⟨2024, 1, 2, 3, 4, 5⟩, chars "c",
   gregorianToNepaliString false (fun _ _ _ => none) (some ⟨2024, 1, 2, 3, 4, 5⟩), none⟩

/-- C10, witness: the frame equalities evaluated on a concrete person row. -/
theorem c10_soft_delete_frame_witness :
    personFrame (softDeletePerson false (fun _ _ _ => none) ⟨2024, 2, 2, 0, 0, 0⟩ pr0) =
      personFrame pr0 ∧
    personFrame (restorePerson false (fun _ _ _ => none) pr0) = personFrame pr0 :=
  c10_soft_delete_frame false (fun _ _ _ => none) ⟨2024, 2, 2, 0, 0, 0⟩ pr0 rfl

end HR
